import Mathlib

/-!
Verification of the escape-time fractal kernel in src/mandelbrot.py.

The source is embedded shallowly: Python complex numbers become pairs of
rationals (exact arithmetic), numpy arrays become lists of lists, and the
magnitude test abs(z) > 2 is expressed exactly as re^2 + im^2 > 4.
Python int parameters are embedded as Lean integers; a for-loop over
range(n) runs Int.toNat n times, matching Python's empty range for n <= 0.
-/

namespace Mandelbrot

/-- A Python complex number, modelled exactly as a pair of rationals (re, im). -/
abbrev CQ : Type := ℚ × ℚ

/-- Complex addition. -/
def cadd (a b : CQ) : CQ := (a.1 + b.1, a.2 + b.2)

/-- Complex squaring: (a+bi)^2 = (a^2 - b^2) + (2ab)i. -/
def csq (a : CQ) : CQ := (a.1 * a.1 - a.2 * a.2, 2 * (a.1 * a.2))

/-- Squared magnitude of a complex number. -/
def absSq (z : CQ) : ℚ := z.1 * z.1 + z.2 * z.2

/-- The source's divergence test abs(z) > 2, expressed exactly: for exact
arithmetic, abs(z) > 2 holds iff absSq z > 4. -/
def escapes (z : CQ) : Bool := decide (4 < absSq z)

/-- The orbit z_{n+1} = z_n^2 + c started at z_0 (the update z = z**2 + c of
the source, lines 20 and 109 of src/mandelbrot.py). -/
def zIterFrom (c z0 : CQ) : ℕ → CQ
  | 0 => z0
  | n + 1 => cadd (csq (zIterFrom c z0 n)) c

/-- The loop of get_escape_time: for each index starting at i, with fuel
indices remaining, test abs(z) > 2 and return the index on escape, else
update z = z*z + c; on exhaustion return the final z. -/
def escapeLoop (c : CQ) : CQ → ℕ → ℕ → Option ℕ × CQ
  | z, _, 0 => (none, z)
  | z, i, fuel + 1 =>
      if escapes z then (some i, z)
      else escapeLoop c (cadd (csq z) c) (i + 1) fuel

/-- Shallow embedding of get_escape_time (src/mandelbrot.py, lines 3-23):
z starts at c; the loop runs over range(max_iterations), returning the loop
index on escape; after the loop one more magnitude check returns
max_iterations, and otherwise the result is None. -/
def get_escape_time (c : CQ) (max_iterations : ℤ) : Option ℤ :=
  match escapeLoop c c 0 max_iterations.toNat with
  | (some i, _) => some (i : ℤ)
  | (none, z) => if escapes z then some max_iterations else none

/-- Element count of numpy.arange(start, stop, step): max(0, ceil((stop - start)/step)). -/
def arangeLen (a b s : ℚ) : ℕ := (⌈(b - a) / s⌉).toNat

/-- numpy.arange(start, stop, step) in exact arithmetic: the k-th element is
start + k*step, and the element count is max(0, ceil((stop - start)/step)). -/
def arange (a b s : ℚ) : List ℚ :=
  (List.range (arangeLen a b s)).map (fun (k : ℕ) => a + (k : ℚ) * s)

/-- Shallow embedding of get_complex_grid (src/mandelbrot.py, lines 25-48):
degenerate regions give the empty array; otherwise row1 = arange over real
parts, col1 = arange over imaginary parts with step -step, and the
broadcast row1 + col1*1j makes entry (r, c) equal to (row1[c], col1[r]). -/
def get_complex_grid (top_left bottom_right : CQ) (step : ℚ) : List (List CQ) :=
  if bottom_right.1 < top_left.1 ∨ top_left.2 < bottom_right.2 then []
  else
    (arange top_left.2 bottom_right.2 (-step)).map
      (fun im => (arange top_left.1 bottom_right.1 step).map (fun re => (re, im)))

/-- The escape-time value stored by the first sweep of
get_escape_time_color_arr: the i, j entry of escape_times_arr is
max_iterations + 1 when get_escape_time returned None, else the returned
count (lines 74-78 of src/mandelbrot.py). -/
def escapeTimeEntry (c : CQ) (max_iterations : ℤ) : ℚ :=
  match get_escape_time c max_iterations with
  | none => (max_iterations : ℚ) + 1
  | some t => (t : ℚ)

/-- Shallow embedding of get_escape_time_color_arr (src/mandelbrot.py, lines
50-85): the two entrywise sweeps compose into one map sending each sample c
to (max_iterations - escape_time + 1) / (max_iterations + 1). -/
def get_escape_time_color_arr (c_arr : List (List CQ)) (max_iterations : ℤ) :
    List (List ℚ) :=
  c_arr.map (fun row => row.map (fun c =>
    ((max_iterations : ℚ) - escapeTimeEntry c max_iterations + 1) /
      ((max_iterations : ℚ) + 1)))

/-- One iteration of the get_julia_color_arr loop at a single grid position.
The state is (the current z, or none once the entry was set to NaN; the
escape_data value). The source computes z = z**2 + c, tests abs(z) > 2,
assigns the loop index i where escaped and escape_data == 0, and sets
escaped entries of z to NaN. NaN propagates through the recurrence and
makes every later magnitude comparison False, which the none state models. -/
def juliaStep (c : CQ) (st : Option CQ × ℕ) (i : ℕ) : Option CQ × ℕ :=
  match st with
  | (none, d) => (none, d)
  | (some z, d) =>
      let z2 := cadd (csq z) c
      if escapes z2 then (none, if d = 0 then i else d) else (some z2, d)

/-- The value get_julia_color_arr computes at one grid position: fold the
loop body over range(max_iter) from state (grid value, 0) and keep the
escape_data component. The numpy sweep is entrywise, so this per-position
fold is exactly the array code at that position. -/
def juliaPoint (z0 c : CQ) (max_iter : ℤ) : ℕ :=
  ((List.range max_iter.toNat).foldl (juliaStep c) (some z0, 0)).2

/-- Shallow embedding of get_julia_color_arr (src/mandelbrot.py, lines 87-118). -/
def get_julia_color_arr (grid : List (List CQ)) (c : CQ) (max_iter : ℤ) :
    List (List ℕ) :=
  grid.map (fun row => row.map (fun z0 => juliaPoint z0 c max_iter))

/-- Escape time as the specification states it (for comparison with
get_escape_time): the least n among 0..max_iterations-1 with abs(z_n) > 2 —
List.find? over the increasing range returns the least such index — and if
there is none, one final check of the last computed z decides between
Escaped(max_iterations) and Bounded (None). -/
def escapeTimeSpec (c : CQ) (max_iterations : ℤ) : Option ℤ :=
  match (List.range max_iterations.toNat).find?
      (fun n => escapes (zIterFrom c c n)) with
  | some n => some (n : ℤ)
  | none =>
      if escapes (zIterFrom c c max_iterations.toNat) then some max_iterations
      else none

/-! ### Helper lemmas: the escape-time loop -/

theorem zIterFrom_zero_orbit (n : ℕ) :
    zIterFrom ((0 : ℚ), (0 : ℚ)) ((0 : ℚ), (0 : ℚ)) n = ((0 : ℚ), (0 : ℚ)) := by
  induction n with
  | zero => rfl
  | succ n ih =>
      rw [zIterFrom, ih]
      norm_num [cadd, csq, Prod.ext_iff]

theorem escapeLoop_eq (c z0 : CQ) :
    ∀ (fuel s : ℕ),
      escapeLoop c (zIterFrom c z0 s) s fuel =
        match (List.range' s fuel).find? (fun n => escapes (zIterFrom c z0 n)) with
        | some n => (some n, zIterFrom c z0 n)
        | none => (none, zIterFrom c z0 (s + fuel)) := by
  intro fuel
  induction fuel with
  | zero =>
      intro s
      simp [escapeLoop, List.range']
  | succ fuel ih =>
      intro s
      rw [List.range'_succ]
      have hunf : escapeLoop c (zIterFrom c z0 s) s (fuel + 1)
          = if escapes (zIterFrom c z0 s) then (some s, zIterFrom c z0 s)
            else escapeLoop c (cadd (csq (zIterFrom c z0 s)) c) (s + 1) fuel := rfl
      by_cases h : escapes (zIterFrom c z0 s) = true
      · rw [hunf, if_pos h]
        simp only [List.find?_cons, h]
      · have h' : escapes (zIterFrom c z0 s) = false := by
          exact Bool.not_eq_true _ ▸ Bool.of_not_eq_true h
        rw [hunf, if_neg h]
        have hz1 : cadd (csq (zIterFrom c z0 s)) c = zIterFrom c z0 (s + 1) := rfl
        rw [hz1, ih (s + 1)]
        simp only [List.find?_cons, h']
        have harith : s + 1 + fuel = s + (fuel + 1) := by omega
        rw [harith]

theorem get_escape_time_char (c : CQ) (m : ℤ) :
    get_escape_time c m = escapeTimeSpec c m := by
  unfold get_escape_time escapeTimeSpec
  rw [List.range_eq_range']
  rw [show escapeLoop c c 0 m.toNat
      = escapeLoop c (zIterFrom c c 0) 0 m.toNat from rfl]
  rw [escapeLoop_eq c c m.toNat 0]
  cases hf : (List.range' 0 m.toNat).find? (fun n => escapes (zIterFrom c c n)) with
  | none => simp
  | some n => simp

/-! ### C3 and C8 -/

/-- C3: for every c and every maxIterations, get_escape_time returns
Escaped(n) for the least n in 0..maxIterations-1 with abs(z_n) > 2 (z_0 = c
is checked before any update), and when no such n exists it performs one
final magnitude check on the last computed z, returning
Escaped(maxIterations) if that exceeds 2 and Bounded (None) otherwise.
escapeTimeSpec states exactly this reading of the specification. -/
theorem get_escape_time_matches_spec (c : CQ) (m : ℤ) :
    get_escape_time c m = escapeTimeSpec c m :=
  get_escape_time_char c m

/-- C8: for c = 0 the orbit stays at 0 forever, so get_escape_time returns
None (Bounded) for every iteration budget. -/
theorem zero_bounded (m : ℤ) :
    get_escape_time ((0 : ℚ), (0 : ℚ)) m = none := by
  rw [get_escape_time_char]
  have hz : ∀ n : ℕ,
      escapes (zIterFrom ((0 : ℚ), (0 : ℚ)) ((0 : ℚ), (0 : ℚ)) n) = false := by
    intro n
    rw [zIterFrom_zero_orbit]
    norm_num [escapes, absSq]
  have hfind : (List.range m.toNat).find?
      (fun n => escapes (zIterFrom ((0 : ℚ), (0 : ℚ)) ((0 : ℚ), (0 : ℚ)) n))
      = none :=
    List.find?_eq_none.mpr (fun x _ => by simpa using hz x)
  unfold escapeTimeSpec
  rw [hfind, hz (Int.toNat m)]
  simp

/-! ### C9: negative iteration budgets -/

/-- C9 counterexample: at c = 3 and max_iterations = -1 the code does not
fail; the loop body is skipped (range of a negative number is empty), the
final magnitude check sees z = c with abs(c) > 2, and the function returns
the negative count -1 as a normal value. -/
theorem negative_iterations_returns_value :
    get_escape_time ((3 : ℚ), (0 : ℚ)) (-1) = some (-1) := by
  have h : escapes ((3 : ℚ), (0 : ℚ)) = true := by norm_num [escapes, absSq]
  have h0 : ((-1 : ℤ)).toNat = 0 := by decide
  unfold get_escape_time
  rw [h0]
  show (if escapes ((3 : ℚ), (0 : ℚ)) then some (-1 : ℤ) else none) = some (-1)
  rw [if_pos h]

/-- C9 amended: for max_iterations < 0, get_escape_time does not fail and
returns a normal value: the loop over range(max_iterations) is empty, so the
final check applies to z = c, giving Escaped(max_iterations) — a negative
count — when abs(c) > 2 and None otherwise. -/
theorem negative_iterations_behavior (c : CQ) (m : ℤ) (hm : m < 0) :
    get_escape_time c m = if escapes c then some m else none := by
  have h0 : m.toNat = 0 := Int.toNat_of_nonpos (le_of_lt hm)
  unfold get_escape_time
  rw [h0]
  rfl

theorem negative_iterations_behavior_witness :
    (-2 : ℤ) < 0 ∧ get_escape_time ((0 : ℚ), (0 : ℚ)) (-2)
      = if escapes ((0 : ℚ), (0 : ℚ)) then some (-2) else none :=
  ⟨by norm_num, negative_iterations_behavior ((0 : ℚ), (0 : ℚ)) (-2) (by norm_num)⟩

/-! ### C4: Policy B normalization and the [0, 1] range -/

theorem get_escape_time_bounds (c : CQ) (m : ℤ) (hm : 0 ≤ m) (t : ℤ)
    (ht : get_escape_time c m = some t) : 0 ≤ t ∧ t ≤ m := by
  rw [get_escape_time_char] at ht
  unfold escapeTimeSpec at ht
  cases hf : (List.range m.toNat).find? (fun n => escapes (zIterFrom c c n)) with
  | some n =>
      rw [hf] at ht
      have hmem : n ∈ List.range m.toNat := List.mem_of_find?_eq_some hf
      have hn : n < m.toNat := List.mem_range.mp hmem
      have htn : (n : ℤ) = t := Option.some.inj ht
      omega
  | none =>
      rw [hf] at ht
      by_cases h : escapes (zIterFrom c c m.toNat) = true
      · rw [if_pos h] at ht
        have := Option.some.inj ht
        omega
      · rw [if_neg h] at ht
        exact absurd ht (by simp)

theorem escapeTimeEntry_bounds (c : CQ) (m : ℤ) (hm : 0 ≤ m) :
    0 ≤ escapeTimeEntry c m ∧ escapeTimeEntry c m ≤ (m : ℚ) + 1 := by
  have hm' : (0 : ℚ) ≤ (m : ℚ) := by exact_mod_cast hm
  unfold escapeTimeEntry
  cases hg : get_escape_time c m with
  | none =>
      show 0 ≤ (m : ℚ) + 1 ∧ (m : ℚ) + 1 ≤ (m : ℚ) + 1
      exact ⟨by linarith, le_refl _⟩
  | some t =>
      obtain ⟨h1, h2⟩ := get_escape_time_bounds c m hm t hg
      have h1' : (0 : ℚ) ≤ (t : ℚ) := by exact_mod_cast h1
      have h2' : (t : ℚ) ≤ (m : ℚ) := by exact_mod_cast h2
      show 0 ≤ (t : ℚ) ∧ (t : ℚ) ≤ (m : ℚ) + 1
      exact ⟨h1', by linarith⟩

/-- C4: get_escape_time_color_arr implements Policy B — a Bounded sample is
treated as escape time max_iterations + 1, and every entry is
(max_iterations - escape_time + 1) / (max_iterations + 1) — and for
max_iterations >= 0 every entry of the output lies in [0, 1]. -/
theorem color_arr_policyB_range (c_arr : List (List CQ)) (m : ℤ) (hm : 0 ≤ m) :
    get_escape_time_color_arr c_arr m
        = c_arr.map (fun row => row.map (fun c =>
            ((m : ℚ) - escapeTimeEntry c m + 1) / ((m : ℚ) + 1)))
      ∧ ∀ row ∈ get_escape_time_color_arr c_arr m, ∀ x ∈ row, 0 ≤ x ∧ x ≤ 1 := by
  refine ⟨rfl, ?_⟩
  intro row hrow x hx
  unfold get_escape_time_color_arr at hrow
  obtain ⟨crow, hcrow, hrow'⟩ := List.mem_map.mp hrow
  rw [← hrow'] at hx
  obtain ⟨c, hc, hx'⟩ := List.mem_map.mp hx
  obtain ⟨h1, h2⟩ := escapeTimeEntry_bounds c m hm
  have hm' : (0 : ℚ) ≤ (m : ℚ) := by exact_mod_cast hm
  have hden : (0 : ℚ) < (m : ℚ) + 1 := by linarith
  rw [← hx']
  constructor
  · apply div_nonneg _ (le_of_lt hden)
    linarith
  · rw [div_le_one hden]
    linarith

theorem color_arr_policyB_range_witness :
    (0 : ℤ) ≤ 1 ∧
      (get_escape_time_color_arr [[((0 : ℚ), (0 : ℚ))]] 1
          = [[((0 : ℚ), (0 : ℚ))]].map (fun row => row.map (fun c =>
              (((1 : ℤ) : ℚ) - escapeTimeEntry c 1 + 1) / (((1 : ℤ) : ℚ) + 1)))
        ∧ ∀ row ∈ get_escape_time_color_arr [[((0 : ℚ), (0 : ℚ))]] 1,
            ∀ x ∈ row, 0 ≤ x ∧ x ≤ 1) :=
  ⟨by norm_num, color_arr_policyB_range [[((0 : ℚ), (0 : ℚ))]] 1 (by norm_num)⟩

/-! ### C5 and C6: degenerate regions -/

/-- C5: a degenerate region — bottom-right real part left of the top-left
one, or bottom-right imaginary part above the top-left one — yields the
empty grid (0 rows, hence zero total samples) rather than an error. -/
theorem degenerate_grid_empty (tl br : CQ) (step : ℚ)
    (hdeg : br.1 < tl.1 ∨ tl.2 < br.2) (hstep : 0 < step) :
    get_complex_grid tl br step = [] := by
  unfold get_complex_grid
  rw [if_pos hdeg]

theorem degenerate_grid_empty_witness :
    (((-1 : ℚ) < 0 ∨ (0 : ℚ) < 0) ∧ (0 : ℚ) < 1) ∧
      get_complex_grid ((0 : ℚ), (0 : ℚ)) ((-1 : ℚ), (0 : ℚ)) 1 = [] :=
  ⟨⟨Or.inl (by norm_num), by norm_num⟩,
    degenerate_grid_empty ((0 : ℚ), (0 : ℚ)) ((-1 : ℚ), (0 : ℚ)) 1
      (Or.inl (by norm_num)) (by norm_num)⟩

/-- C6: composing the renderer with the sampler on a degenerate region is
total (the embedding is a total function, mirroring that no exception is
raised: the row loop of get_escape_time_color_arr runs zero times) and
yields the empty intensity field. -/
theorem render_degenerate_empty (tl br : CQ) (step : ℚ) (m : ℤ)
    (hdeg : br.1 < tl.1 ∨ tl.2 < br.2) (hm : 0 ≤ m) :
    get_escape_time_color_arr (get_complex_grid tl br step) m = [] := by
  unfold get_complex_grid
  rw [if_pos hdeg]
  rfl

theorem render_degenerate_empty_witness :
    (((-1 : ℚ) < 0 ∨ (0 : ℚ) < 0) ∧ (0 : ℤ) ≤ 0) ∧
      get_escape_time_color_arr
        (get_complex_grid ((0 : ℚ), (0 : ℚ)) ((-1 : ℚ), (0 : ℚ)) 1) 0 = [] :=
  ⟨⟨Or.inl (by norm_num), le_refl 0⟩,
    render_degenerate_empty ((0 : ℚ), (0 : ℚ)) ((-1 : ℚ), (0 : ℚ)) 1 0
      (Or.inl (by norm_num)) (le_refl 0)⟩

/-! ### Grid geometry: C7 and C1 -/

theorem arange_getElem (a b s : ℚ) (k : ℕ) (x : ℚ)
    (h : (arange a b s)[k]? = some x) : x = a + (k : ℚ) * s := by
  unfold arange at h
  rw [List.getElem?_map] at h
  cases hk : (List.range (arangeLen a b s))[k]? with
  | none => rw [hk] at h; exact absurd h (by simp)
  | some j =>
      rw [hk] at h
      obtain ⟨hklt, hj⟩ := List.getElem?_eq_some.mp hk
      rw [List.getElem_range] at hj
      rw [Option.map_some'] at h
      have hx := Option.some.inj h
      rw [← hx, hj]

theorem arange_length (a b s : ℚ) : (arange a b s).length = arangeLen a b s := by
  unfold arange
  rw [List.length_map, List.length_range]

theorem grid_pos (tl br : CQ) (s : ℚ) (r c : ℕ) (row : List CQ) (z : CQ)
    (hr : (get_complex_grid tl br s)[r]? = some row)
    (hc : row[c]? = some z) :
    z = (tl.1 + (c : ℚ) * s, tl.2 - (r : ℚ) * s) := by
  unfold get_complex_grid at hr
  by_cases hdeg : br.1 < tl.1 ∨ tl.2 < br.2
  · rw [if_pos hdeg] at hr
    exact absurd hr (by simp)
  · rw [if_neg hdeg] at hr
    rw [List.getElem?_map] at hr
    cases him : (arange tl.2 br.2 (-s))[r]? with
    | none => rw [him] at hr; exact absurd hr (by simp)
    | some im =>
        rw [him, Option.map_some'] at hr
        have him2 : im = tl.2 + (r : ℚ) * (-s) := arange_getElem _ _ _ _ _ him
        have hrow : (arange tl.1 br.1 s).map (fun re => ((re, im) : CQ)) = row :=
          Option.some.inj hr
        rw [← hrow, List.getElem?_map] at hc
        cases hre : (arange tl.1 br.1 s)[c]? with
        | none => rw [hre] at hc; exact absurd hc (by simp)
        | some re =>
            rw [hre, Option.map_some'] at hc
            have hre2 : re = tl.1 + (c : ℚ) * s := arange_getElem _ _ _ _ _ hre
            have hz : ((re, im) : CQ) = z := Option.some.inj hc
            rw [← hz, hre2, him2, Prod.ext_iff]
            constructor
            · rfl
            · show tl.2 + (r : ℚ) * (-s) = tl.2 - (r : ℚ) * s
              ring

/-- C7: in a non-degenerate region with positive step, the sample stored at
row r, column c of the grid is (topLeft.re + c*step, topLeft.im - r*step);
consequently adjacent samples in a row differ by step in the real part with
equal imaginary parts, and adjacent samples in a column differ by -step in
the imaginary part with equal real parts. -/
theorem grid_sample_positions (tl br : CQ) (step : ℚ)
    (hnd : ¬(br.1 < tl.1 ∨ tl.2 < br.2)) (hstep : 0 < step) :
    (∀ (r c : ℕ) (row : List CQ) (z : CQ),
        (get_complex_grid tl br step)[r]? = some row → row[c]? = some z →
          z = (tl.1 + (c : ℚ) * step, tl.2 - (r : ℚ) * step))
    ∧ (∀ (r c : ℕ) (row : List CQ) (z z' : CQ),
        (get_complex_grid tl br step)[r]? = some row → row[c]? = some z →
          row[c + 1]? = some z' → z'.1 = z.1 + step ∧ z'.2 = z.2)
    ∧ (∀ (r c : ℕ) (row row' : List CQ) (z z' : CQ),
        (get_complex_grid tl br step)[r]? = some row →
          (get_complex_grid tl br step)[r + 1]? = some row' →
          row[c]? = some z → row'[c]? = some z' →
          z'.1 = z.1 ∧ z'.2 = z.2 - step) := by
  refine ⟨?_, ?_, ?_⟩
  · intro r c row z hr hc
    exact grid_pos tl br step r c row z hr hc
  · intro r c row z z' hr hc hc'
    have h1 := grid_pos tl br step r c row z hr hc
    have h2 := grid_pos tl br step r (c + 1) row z' hr hc'
    rw [h1, h2]
    constructor
    · show tl.1 + ((c : ℕ) + 1 : ℕ) * step = tl.1 + (c : ℚ) * step + step
      push_cast
      ring
    · rfl
  · intro r c row row' z z' hr hr' hc hc'
    have h1 := grid_pos tl br step r c row z hr hc
    have h2 := grid_pos tl br step (r + 1) c row' z' hr' hc'
    rw [h1, h2]
    constructor
    · rfl
    · show tl.2 - ((r : ℕ) + 1 : ℕ) * step = tl.2 - (r : ℚ) * step - step
      push_cast
      ring

theorem grid_sample_positions_witness :
    (¬((1 : ℚ) < -1 ∨ (1 : ℚ) < -1) ∧ (0 : ℚ) < 1) ∧
      ((∀ (r c : ℕ) (row : List CQ) (z : CQ),
          (get_complex_grid ((-1 : ℚ), (1 : ℚ)) ((1 : ℚ), (-1 : ℚ)) 1)[r]?
              = some row → row[c]? = some z →
            z = ((-1 : ℚ) + (c : ℚ) * 1, (1 : ℚ) - (r : ℚ) * 1))
      ∧ (∀ (r c : ℕ) (row : List CQ) (z z' : CQ),
          (get_complex_grid ((-1 : ℚ), (1 : ℚ)) ((1 : ℚ), (-1 : ℚ)) 1)[r]?
              = some row → row[c]? = some z →
            row[c + 1]? = some z' → z'.1 = z.1 + 1 ∧ z'.2 = z.2)
      ∧ (∀ (r c : ℕ) (row row' : List CQ) (z z' : CQ),
          (get_complex_grid ((-1 : ℚ), (1 : ℚ)) ((1 : ℚ), (-1 : ℚ)) 1)[r]?
              = some row →
            (get_complex_grid ((-1 : ℚ), (1 : ℚ)) ((1 : ℚ), (-1 : ℚ)) 1)[r + 1]?
              = some row' →
            row[c]? = some z → row'[c]? = some z' →
            z'.1 = z.1 ∧ z'.2 = z.2 - 1)) :=
  ⟨⟨by norm_num, by norm_num⟩,
    grid_sample_positions ((-1 : ℚ), (1 : ℚ)) ((1 : ℚ), (-1 : ℚ)) 1
      (by norm_num) (by norm_num)⟩

theorem grid_example_eval :
    get_complex_grid ((-1 : ℚ), (1 : ℚ)) ((1 : ℚ), (-1 : ℚ)) 1
      = [[((-1 : ℚ), (1 : ℚ)), ((0 : ℚ), (1 : ℚ))],
         [((-1 : ℚ), (0 : ℚ)), ((0 : ℚ), (0 : ℚ))]] := by
  have h1 : arangeLen (-1 : ℚ) 1 1 = 2 := by
    unfold arangeLen
    norm_num
    decide
  have h2 : arangeLen (1 : ℚ) (-1 : ℚ) (-1) = 2 := by
    unfold arangeLen
    norm_num
    decide
  unfold get_complex_grid
  rw [if_neg (by norm_num)]
  unfold arange
  rw [h1, h2]
  rw [show List.range 2 = [0, 1] by simp [List.range_succ]]
  norm_num [Prod.ext_iff]

/-- C1 counterexample: the spec's inclusive formula predicts a 3-row grid
for topLeft = (-1,1), bottomRight = (1,-1), step = 1, but the code's arange
excludes the stop value and the grid has only 2 rows. -/
theorem grid_example_not_three_by_three :
    (get_complex_grid ((-1 : ℚ), (1 : ℚ)) ((1 : ℚ), (-1 : ℚ)) 1).length ≠ 3 := by
  rw [grid_example_eval]
  norm_num

/-- C1 amended: for a non-degenerate region and positive step the grid has
ceil((topLeft.im - bottomRight.im)/step) rows and
ceil((bottomRight.re - topLeft.re)/step) columns — the stop boundary is
excluded whenever the span is an exact multiple of step, as with arange —
and the sample grid for topLeft = (-1,1), bottomRight = (1,-1), step = 1 is
the 2x2 grid with corners (-1,1), (0,1), (-1,0), (0,0). -/
theorem grid_shape_exclusive (tl br : CQ) (step : ℚ)
    (hnd : ¬(br.1 < tl.1 ∨ tl.2 < br.2)) (hstep : 0 < step) :
    (get_complex_grid tl br step).length = (⌈(tl.2 - br.2) / step⌉).toNat
    ∧ (∀ row ∈ get_complex_grid tl br step,
        row.length = (⌈(br.1 - tl.1) / step⌉).toNat)
    ∧ get_complex_grid ((-1 : ℚ), (1 : ℚ)) ((1 : ℚ), (-1 : ℚ)) 1
        = [[((-1 : ℚ), (1 : ℚ)), ((0 : ℚ), (1 : ℚ))],
           [((-1 : ℚ), (0 : ℚ)), ((0 : ℚ), (0 : ℚ))]] := by
  have hflip : (br.2 - tl.2) / (-step) = (tl.2 - br.2) / step := by
    rw [div_neg, ← neg_div, neg_sub]
  refine ⟨?_, ?_, grid_example_eval⟩
  · unfold get_complex_grid
    rw [if_neg hnd, List.length_map, arange_length]
    unfold arangeLen
    rw [hflip]
  · intro row hrow
    unfold get_complex_grid at hrow
    rw [if_neg hnd] at hrow
    obtain ⟨im, him, hrow'⟩ := List.mem_map.mp hrow
    rw [← hrow', List.length_map, arange_length]
    rfl

theorem grid_shape_exclusive_witness :
    (¬((1 : ℚ) < -1 ∨ (1 : ℚ) < -1) ∧ (0 : ℚ) < 1) ∧
      ((get_complex_grid ((-1 : ℚ), (1 : ℚ)) ((1 : ℚ), (-1 : ℚ)) 1).length
          = (⌈((1 : ℚ) - (-1)) / 1⌉).toNat
      ∧ (∀ row ∈ get_complex_grid ((-1 : ℚ), (1 : ℚ)) ((1 : ℚ), (-1 : ℚ)) 1,
          row.length = (⌈((1 : ℚ) - (-1)) / 1⌉).toNat)
      ∧ get_complex_grid ((-1 : ℚ), (1 : ℚ)) ((1 : ℚ), (-1 : ℚ)) 1
          = [[((-1 : ℚ), (1 : ℚ)), ((0 : ℚ), (1 : ℚ))],
             [((-1 : ℚ), (0 : ℚ)), ((0 : ℚ), (0 : ℚ))]]) :=
  ⟨⟨by norm_num, by norm_num⟩,
    grid_shape_exclusive ((-1 : ℚ), (1 : ℚ)) ((1 : ℚ), (-1 : ℚ)) 1
      (by norm_num) (by norm_num)⟩

/-! ### The Julia sweep: C2 and C10 -/

theorem juliaStep_frozen (c : CQ) (d : ℕ) :
    ∀ l : List ℕ, l.foldl (juliaStep c) (none, d) = (none, d) := by
  intro l
  induction l with
  | nil => rfl
  | cons a l ih =>
      rw [List.foldl_cons]
      exact ih

theorem julia_fold_eq (c z0 : CQ) :
    ∀ (fuel s : ℕ),
      (List.range' s fuel).foldl (juliaStep c) (some (zIterFrom c z0 s), 0) =
        match (List.range' s fuel).find?
            (fun i => escapes (zIterFrom c z0 (i + 1))) with
        | some i => ((none : Option CQ), i)
        | none => (some (zIterFrom c z0 (s + fuel)), 0) := by
  intro fuel
  induction fuel with
  | zero =>
      intro s
      simp [List.range']
  | succ fuel ih =>
      intro s
      rw [List.range'_succ, List.foldl_cons]
      have hunf : juliaStep c (some (zIterFrom c z0 s), 0) s
          = if escapes (zIterFrom c z0 (s + 1)) then ((none : Option CQ), s)
            else (some (zIterFrom c z0 (s + 1)), 0) := rfl
      by_cases h : escapes (zIterFrom c z0 (s + 1)) = true
      · rw [hunf, if_pos h, juliaStep_frozen]
        simp only [List.find?_cons, h]
      · have h' : escapes (zIterFrom c z0 (s + 1)) = false :=
          Bool.not_eq_true _ ▸ Bool.of_not_eq_true h
        rw [hunf, if_neg h, ih (s + 1)]
        simp only [List.find?_cons, h']
        rw [show s + 1 + fuel = s + (fuel + 1) from by omega]

theorem juliaPoint_char (z0 c : CQ) (m : ℤ) :
    juliaPoint z0 c m =
      match (List.range m.toNat).find?
          (fun i => escapes (zIterFrom c z0 (i + 1))) with
      | some i => i
      | none => 0 := by
  have h := julia_fold_eq c z0 m.toNat 0
  have h0 : zIterFrom c z0 0 = z0 := rfl
  rw [h0] at h
  unfold juliaPoint
  rw [List.range_eq_range', h]
  cases hf : (List.range' 0 m.toNat).find?
      (fun i => escapes (zIterFrom c z0 (i + 1))) with
  | none => simp
  | some i => simp

theorem find?_range_first (p : ℕ → Bool) :
    ∀ (fuel s n : ℕ), s ≤ n → n < s + fuel → p n = true →
      (∀ k, s ≤ k → k < n → p k = false) →
      (List.range' s fuel).find? p = some n := by
  intro fuel
  induction fuel with
  | zero =>
      intro s n h1 h2 _ _
      exfalso
      omega
  | succ fuel ih =>
      intro s n h1 h2 hp hmin
      rw [List.range'_succ]
      by_cases hsn : s = n
      · subst hsn
        exact List.find?_cons_of_pos _ hp
      · have hlt : s < n := lt_of_le_of_ne h1 hsn
        rw [List.find?_cons_of_neg _ (by simp [hmin s (le_refl s) hlt])]
        exact ih (s + 1) n hlt (by omega) hp (fun k hk1 hk2 => hmin k (by omega) hk2)

theorem juliaPoint_escape_val (z0 c : CQ) (m : ℤ) (n : ℕ)
    (hn : 1 ≤ n) (hnm : (n : ℤ) ≤ m)
    (hesc : escapes (zIterFrom c z0 n) = true)
    (hmin : ∀ k, k < n → escapes (zIterFrom c z0 k) = false) :
    juliaPoint z0 c m = n - 1 := by
  rw [juliaPoint_char]
  have hfind : (List.range m.toNat).find?
      (fun i => escapes (zIterFrom c z0 (i + 1))) = some (n - 1) := by
    rw [List.range_eq_range']
    apply find?_range_first
    · omega
    · omega
    · show escapes (zIterFrom c z0 (n - 1 + 1)) = true
      rw [show n - 1 + 1 = n from by omega]
      exact hesc
    · intro k _ hk2
      show escapes (zIterFrom c z0 (k + 1)) = false
      exact hmin (k + 1) (by omega)
  rw [hfind]

theorem juliaPoint_noescape_val (z0 c : CQ) (m : ℤ)
    (h : ∀ k : ℕ, 1 ≤ k → (k : ℤ) ≤ m → escapes (zIterFrom c z0 k) = false) :
    juliaPoint z0 c m = 0 := by
  rw [juliaPoint_char]
  have hfind : (List.range m.toNat).find?
      (fun i => escapes (zIterFrom c z0 (i + 1))) = none := by
    apply List.find?_eq_none.mpr
    intro x hx
    have hxm : x < m.toNat := List.mem_range.mp hx
    simp only [Bool.not_eq_true]
    show escapes (zIterFrom c z0 (x + 1)) = false
    exact h (x + 1) (by omega) (by omega)
  rw [hfind]

theorem julia_arr_get (grid : List (List CQ)) (c : CQ) (m : ℤ) (i j : ℕ)
    (row : List CQ) (z0 : CQ)
    (hrow : grid[i]? = some row) (hz : row[j]? = some z0) :
    ∃ orow, (get_julia_color_arr grid c m)[i]? = some orow
      ∧ orow[j]? = some (juliaPoint z0 c m) := by
  unfold get_julia_color_arr
  rw [List.getElem?_map, hrow, Option.map_some']
  refine ⟨_, rfl, ?_⟩
  rw [List.getElem?_map, hz, Option.map_some']

/-- C2 counterexample: for the grid [[1.9]] and c = 0 with max_iter = 2, the
orbit started at z_0 = 1.9 first exceeds magnitude 2 at index n = 1
(z_0 = 1.9, z_1 = 3.61), and 1 < max_iter, so the claim demands output value
1 at that position; but the code updates z before testing and records the
loop index of the already-updated value, storing 0. -/
theorem julia_offbyone_cex :
    escapes (zIterFrom ((0 : ℚ), (0 : ℚ)) ((19 / 10 : ℚ), (0 : ℚ)) 0) = false
    ∧ escapes (zIterFrom ((0 : ℚ), (0 : ℚ)) ((19 / 10 : ℚ), (0 : ℚ)) 1) = true
    ∧ get_julia_color_arr [[((19 / 10 : ℚ), (0 : ℚ))]] ((0 : ℚ), (0 : ℚ)) 2
        = [[0]] := by
  have h0 : escapes (zIterFrom ((0 : ℚ), (0 : ℚ)) ((19 / 10 : ℚ), (0 : ℚ)) 0)
      = false := by
    norm_num [zIterFrom, escapes, absSq]
  have h1 : escapes (zIterFrom ((0 : ℚ), (0 : ℚ)) ((19 / 10 : ℚ), (0 : ℚ)) 1)
      = true := by
    norm_num [zIterFrom, escapes, absSq, cadd, csq]
  refine ⟨h0, h1, ?_⟩
  have hv : juliaPoint ((19 / 10 : ℚ), (0 : ℚ)) ((0 : ℚ), (0 : ℚ)) 2 = 0 := by
    have hval := juliaPoint_escape_val ((19 / 10 : ℚ), (0 : ℚ))
      ((0 : ℚ), (0 : ℚ)) 2 1 (le_refl 1) (by norm_num) h1
      (fun k hk => by
        interval_cases k
        exact h0)
    simpa using hval
  show [[juliaPoint ((19 / 10 : ℚ), (0 : ℚ)) ((0 : ℚ), (0 : ℚ)) 2]] = [[0]]
  rw [hv]

/-- C2 amended: the Julia evaluator never checks the initial grid value z_0;
the value at a grid position is i where i is the first 0-indexed loop
iteration with abs(z_{i+1}) > 2 — one less than the first index n >= 1 at
which the orbit exceeds the threshold — whenever such n <= maxIterations
exists, and a position whose orbit never exceeds the threshold at indices
1..maxIterations keeps the sentinel value 0. -/
theorem julia_escape_index_shifted (c : CQ) (m : ℤ)
    (grid : List (List CQ)) (i j : ℕ) (row : List CQ) (z0 : CQ)
    (hrow : grid[i]? = some row) (hz : row[j]? = some z0) :
    (∀ n : ℕ, 1 ≤ n → (n : ℤ) ≤ m →
        escapes (zIterFrom c z0 n) = true →
        (∀ k, k < n → escapes (zIterFrom c z0 k) = false) →
        ∃ orow, (get_julia_color_arr grid c m)[i]? = some orow
          ∧ orow[j]? = some (n - 1))
    ∧ ((∀ k : ℕ, 1 ≤ k → (k : ℤ) ≤ m → escapes (zIterFrom c z0 k) = false) →
        ∃ orow, (get_julia_color_arr grid c m)[i]? = some orow
          ∧ orow[j]? = some 0) := by
  constructor
  · intro n hn hnm hesc hmin
    have hv := juliaPoint_escape_val z0 c m n hn hnm hesc hmin
    obtain ⟨orow, ho1, ho2⟩ := julia_arr_get grid c m i j row z0 hrow hz
    exact ⟨orow, ho1, by rw [ho2, hv]⟩
  · intro hno
    have hv := juliaPoint_noescape_val z0 c m hno
    obtain ⟨orow, ho1, ho2⟩ := julia_arr_get grid c m i j row z0 hrow hz
    exact ⟨orow, ho1, by rw [ho2, hv]⟩

theorem julia_escape_index_shifted_witness :
    ([[((19 / 10 : ℚ), (0 : ℚ))]] : List (List CQ))[0]?
        = some [((19 / 10 : ℚ), (0 : ℚ))]
    ∧ ([((19 / 10 : ℚ), (0 : ℚ))] : List CQ)[0]? = some ((19 / 10 : ℚ), (0 : ℚ))
    ∧ ((∀ n : ℕ, 1 ≤ n → (n : ℤ) ≤ 2 →
          escapes (zIterFrom ((0 : ℚ), (0 : ℚ)) ((19 / 10 : ℚ), (0 : ℚ)) n) = true →
          (∀ k, k < n →
            escapes (zIterFrom ((0 : ℚ), (0 : ℚ)) ((19 / 10 : ℚ), (0 : ℚ)) k)
              = false) →
          ∃ orow,
            (get_julia_color_arr [[((19 / 10 : ℚ), (0 : ℚ))]]
                ((0 : ℚ), (0 : ℚ)) 2)[0]? = some orow
            ∧ orow[0]? = some (n - 1))
      ∧ ((∀ k : ℕ, 1 ≤ k → (k : ℤ) ≤ 2 →
            escapes (zIterFrom ((0 : ℚ), (0 : ℚ)) ((19 / 10 : ℚ), (0 : ℚ)) k)
              = false) →
          ∃ orow,
            (get_julia_color_arr [[((19 / 10 : ℚ), (0 : ℚ))]]
                ((0 : ℚ), (0 : ℚ)) 2)[0]? = some orow
            ∧ orow[0]? = some 0)) :=
  ⟨rfl, rfl,
    julia_escape_index_shifted ((0 : ℚ), (0 : ℚ)) 2
      [[((19 / 10 : ℚ), (0 : ℚ))]] 0 0 [((19 / 10 : ℚ), (0 : ℚ))]
      ((19 / 10 : ℚ), (0 : ℚ)) rfl rfl⟩

theorem juliaStep_data (c : CQ) (st : Option CQ × ℕ) (i : ℕ) :
    (juliaStep c st i).2 = st.2 ∨ (juliaStep c st i).2 = i := by
  rcases st with ⟨oz, d⟩
  cases oz with
  | none => left; rfl
  | some z =>
      show ((if escapes (cadd (csq z) c)
          then ((none : Option CQ), if d = 0 then i else d)
          else (some (cadd (csq z) c), d)) : Option CQ × ℕ).2 = d
        ∨ ((if escapes (cadd (csq z) c)
          then ((none : Option CQ), if d = 0 then i else d)
          else (some (cadd (csq z) c), d)) : Option CQ × ℕ).2 = i
      by_cases h : escapes (cadd (csq z) c) = true
      · rw [if_pos h]
        by_cases hd : d = 0
        · right
          simp [hd]
        · left
          simp [hd]
      · rw [if_neg h]
        left
        rfl

theorem julia_fold_data (c : CQ) :
    ∀ (l : List ℕ) (st : Option CQ × ℕ),
      (l.foldl (juliaStep c) st).2 = st.2 ∨ (l.foldl (juliaStep c) st).2 ∈ l := by
  intro l
  induction l with
  | nil =>
      intro st
      left
      rfl
  | cons a l ih =>
      intro st
      rw [List.foldl_cons]
      rcases ih (juliaStep c st a) with h | h
      · rcases juliaStep_data c st a with h2 | h2
        · left
          rw [h, h2]
        · right
          rw [h, h2]
          exact List.mem_cons_self a l
      · right
        exact List.mem_cons_of_mem a h

/-- C10: every entry of get_julia_color_arr is a non-negative integer at
most max_iter - 1 when max_iter >= 1 — the value max_iter itself never
occurs, since there is no post-loop magnitude check in the Julia sweep —
and for max_iter <= 0 (empty loop) the returned array is all zeros. -/
theorem julia_values_range (grid : List (List CQ)) (c : CQ) (m : ℤ) :
    (1 ≤ m → ∀ row ∈ get_julia_color_arr grid c m, ∀ v ∈ row, (v : ℤ) ≤ m - 1)
    ∧ (m ≤ 0 → ∀ row ∈ get_julia_color_arr grid c m, ∀ v ∈ row, v = 0) := by
  have hval : ∀ z0 : CQ, juliaPoint z0 c m = 0 ∨ juliaPoint z0 c m < m.toNat := by
    intro z0
    unfold juliaPoint
    rcases julia_fold_data c (List.range m.toNat) (some z0, 0) with h | h
    · left
      exact h
    · right
      exact List.mem_range.mp h
  constructor
  · intro hm row hrow v hv
    unfold get_julia_color_arr at hrow
    obtain ⟨crow, _, hcrow⟩ := List.mem_map.mp hrow
    rw [← hcrow] at hv
    obtain ⟨z0, _, hz0⟩ := List.mem_map.mp hv
    rcases hval z0 with h | h
    · rw [← hz0, h]
      omega
    · have hvm : v < m.toNat := hz0 ▸ h
      omega
  · intro hm row hrow v hv
    unfold get_julia_color_arr at hrow
    obtain ⟨crow, _, hcrow⟩ := List.mem_map.mp hrow
    rw [← hcrow] at hv
    obtain ⟨z0, _, hz0⟩ := List.mem_map.mp hv
    rcases hval z0 with h | h
    · rw [← hz0]
      exact h
    · exfalso
      omega

theorem julia_values_range_witness :
    (1 : ℤ) ≤ 1 ∧
      ∀ row ∈ get_julia_color_arr [[((3 : ℚ), (0 : ℚ))]] ((0 : ℚ), (0 : ℚ)) 1,
        ∀ v ∈ row, (v : ℤ) ≤ 1 - 1 :=
  ⟨le_refl 1,
    (julia_values_range [[((3 : ℚ), (0 : ℚ))]] ((0 : ℚ), (0 : ℚ)) 1).1
      (le_refl 1)⟩

end Mandelbrot
